import Mathlib

/-!
Shallow embedding of the download-management extension
(`src/extensions/download_management/index.ts`) of the Vortex repository.

The embedding translates the code paths referenced by the verified claims:

* the `knownArchiveExt` filter and the Node `path.extname` semantics it uses;
* the startup-recovery block of `init` (`context.once`, lines 528-560): the
  `interruptedDownloads` pass (removal of never-started downloads, the
  `setDownloadInterrupted` transition with its `realSize` computation) and the
  final sweep removing downloads without a `localPath`;
* the download-directory change handler produced by `genDownloadChangeHandler`;
* the import-via-`move` flow (including `queryReplace` / `removeArchive`);
* the speed callback given to the `DownloadManager` constructor and the
  10-second `Debouncer` used for `setDownloadSpeeds`.

JavaScript-specific semantics (truthiness, `NaN` arithmetic on possibly
`undefined` numbers) are made explicit: a possibly-`undefined` JS number is an
`Option Int` where `none` stands for `undefined`/`NaN`, and a possibly-absent
string is an `Option String`.
-/

namespace Vortex

/-- JS truthiness of a possibly-absent string, as used by `util.truthy` at the
call sites in the sources (`truthy(filePath)`, `truthy(downloads[id].localPath)`):
`undefined`/`null` (here `none`) and the empty string are falsy, any other
string is truthy. -/
def truthyStr : Option String → Bool
  | none => false
  | some s => !(decide (s = ""))

/-- JS truthiness of a possibly-absent array, as used by
`truthy(downloads[id].urls)` in the sources: `undefined`/`null` (here `none`)
is falsy, and any array — including the empty array — is truthy in
JavaScript. -/
def truthyArr {α : Type} : Option (List α) → Bool
  | none => false
  | some _ => true

/-- JS `+` on numbers where `none` stands for `undefined`/`NaN`: any operation
involving `undefined` or `NaN` yields `NaN`. -/
def jsAdd : Option Int → Option Int → Option Int
  | some a, some b => some (a + b)
  | _, _ => none

/-- JS `-` on numbers where `none` stands for `undefined`/`NaN`. -/
def jsSub : Option Int → Option Int → Option Int
  | some a, some b => some (a - b)
  | _, _ => none

/-- The `sum` helper from `util/util` as called in the sources
(`sum(list) = list.reduce((p, v) => p + v, 0)`), with JS `NaN` propagation. -/
def jsSum (l : List (Option Int)) : Option Int :=
  l.foldl jsAdd (some 0)

/-- All elements defined: `some` of the list of values, else `none`. -/
def optionSeq : List (Option Int) → Option (List Int)
  | [] => some []
  | none :: _ => none
  | some x :: rest => (optionSeq rest).map (x :: ·)

/-- `path.join(dir, name)` for the simple directory-plus-file-name case used in
the sources. -/
def pathJoin (dir name : String) : String :=
  dir ++ "/" ++ name

/-- ASCII lowercasing, the behavior of `String.prototype.toLowerCase` on the
ASCII extension strings involved here. -/
def lowerString (s : String) : String :=
  String.mk (s.toList.map Char.toLower)

/-- Path separators recognized by Node's `path` module on Windows (Vortex's
primary platform); on posix only `/` matters and `\` never occurs in the file
names involved. -/
def isPathSep (c : Char) : Bool :=
  c == '/' || c == '\\'

/-- The final path segment (Node `basename` for the names involved here):
everything after the last separator. -/
def lastSegment (cs : List Char) : List Char :=
  cs.foldl (fun acc c => if isPathSep c then [] else acc ++ [c]) []

/-- Index of the last `.` in a character list, if any. -/
def lastDotIdx (cs : List Char) : Option Nat :=
  match cs.reverse.findIdx? (· == '.') with
  | none => none
  | some r => some (cs.length - 1 - r)

/-- Node `path.extname`: the substring of the base name from its last `.` to
the end; the empty string when the base name has no `.`, when its only `.` is
its first character (dot-files), or when the base name is `..`. -/
def extname (p : String) : String :=
  let base := lastSegment p.toList
  if base = ['.', '.'] then ""
  else
    match lastDotIdx base with
    | none => ""
    | some 0 => ""
    | some i => String.mk (base.drop i)

/-- The `archiveExtLookup` set from the sources (index.ts lines 48-52). -/
def archiveExtLookup : List String :=
  [".zip", ".z01", ".7z", ".rar", ".r00", ".001", ".bz2", ".bzip2", ".gz",
   ".gzip", ".xz", ".z", ".fomod"]

/-- `knownArchiveExt` from the sources (index.ts lines 54-59):
`if (!truthy(filePath)) return false;
 return archiveExtLookup.has(path.extname(filePath).toLowerCase());`.
The argument is `Option String` because callers may pass `undefined`. -/
def knownArchiveExt (filePath : Option String) : Bool :=
  if truthyStr filePath = false then false
  else archiveExtLookup.contains (lowerString (extname (filePath.getD "")))

/-! ## Data model -/

/-- Download states occurring in the sources: `init`, `started`, `paused`
appear in the badge count (index.ts line 391), `pending` in the recovery
filter (line 530), `finished` in several filters; `failed` and the
`interrupted` classification come from the spec's state machine (§3, §4.5);
the `SET_DOWNLOAD_INTERRUPTED` reducer is not under the sources, so the
`interrupted` state is modelled from the spec. -/
inductive DLState
  | dlInit
  | started
  | pending
  | paused
  | finished
  | failed
  | interrupted
deriving DecidableEq, Repr

/-- One persisted chunk; only its `size` bookkeeping field is read by the
code under verification (`chunk.size`, index.ts line 546). `none` stands for
an `undefined` field. -/
structure IChunk where
  size : Option Int
deriving DecidableEq, Repr

/-- The persisted download record fields read or written by the code under
verification. `none` always stands for a JS `undefined` field. -/
structure IDownload where
  state : DLState
  urls : Option (List String)
  localPath : Option String
  size : Option Int
  received : Option Int
  chunks : Option (List IChunk)
  game : Option String
deriving DecidableEq, Repr

/-- The persisted `state.persistent.downloads.files` object: an ordered list
of `(id, record)` pairs, the order being the `Object.keys` iteration order. -/
abbrev Files : Type := List (String × IDownload)

/-- `files[id]`: the record stored under `id`, if any. -/
def getFile : Files → String → Option IDownload
  | [], _ => none
  | p :: rest, id => if p.1 = id then some p.2 else getFile rest id

/-- `Object.keys(files)` are distinct by construction in JS; association
lists with this property model the object faithfully. -/
def keysNodup (files : Files) : Prop :=
  (List.map Prod.fst files).Nodup

instance (files : Files) : Decidable (keysNodup files) :=
  inferInstanceAs (Decidable (List.map Prod.fst files).Nodup)

/-! ## Store actions and their effect on the files map -/

/-- The Redux actions dispatched by the code under verification, restricted to
their payload fields that matter for the persisted files map. -/
inductive Action
  | removeDownload (id : String)
  | setDownloadInterrupted (id : String) (realSize : Int)
  | addLocalDownload (id game fileName : String) (fileSize : Int)
  | downloadProgress (id : String) (received total : Int)
  | setDownloadSpeed (speed : Int)
  | setDownloadSpeeds (history : List Int)
deriving DecidableEq, Repr

/-- The record created for a local download. Modelled from the spec: the
`addLocalDownload` reducer is not under the sources; per the persisted record
shape (§6) and the local-download flow a fresh record is created already
`finished`, with the given file name as `localPath`, the given size, and no
candidate URLs to resolve (an empty url list). -/
def mkLocalDownload (game fileName : String) (fileSize : Int) : IDownload :=
  { state := .finished
    urls := some []
    localPath := some fileName
    size := some fileSize
    received := some fileSize
    chunks := none
    game := some game }

/-- The record mutation performed by the `setDownloadInterrupted` reducer. -/
def setInterruptedRec (d : IDownload) : IDownload :=
  { d with state := .interrupted }

/-- The record mutation performed by the `downloadProgress` reducer. -/
def setProgressRec (received total : Int) (d : IDownload) : IDownload :=
  { d with received := some received, size := some total }

/-- Effect of a dispatched action on the persisted files map. Modelled from
the spec: the reducers (`reducers/state.ts`) are not under the sources; per
the spec `removeDownload` deletes the entry, `setDownloadInterrupted` moves
the record to `interrupted` (§4.5, §3), `addLocalDownload` inserts a fresh
record, `downloadProgress` updates the received/total byte counts, and the
speed actions do not touch the files map. -/
def applyAction (files : Files) : Action → Files
  | .removeDownload id =>
      List.filter (fun p => !(decide (p.1 = id))) files
  | .setDownloadInterrupted id _ =>
      List.map (fun p =>
        if p.1 = id then (p.1, setInterruptedRec p.2) else p) files
  | .addLocalDownload id game fileName fileSize =>
      files ++ [(id, mkLocalDownload game fileName fileSize)]
  | .downloadProgress id received total =>
      List.map (fun p =>
        if p.1 = id then (p.1, setProgressRec received total p.2) else p) files
  | .setDownloadSpeed _ => files
  | .setDownloadSpeeds _ => files

/-- The record id an action addresses, if any. -/
def Action.target : Action → Option String
  | .removeDownload id => some id
  | .setDownloadInterrupted id _ => some id
  | .addLocalDownload id _ _ _ => some id
  | .downloadProgress id _ _ => some id
  | .setDownloadSpeed _ => none
  | .setDownloadSpeeds _ => none

/-- Pointwise effect of an action on the entry it targets. -/
def applyPoint (o : Option IDownload) : Action → Option IDownload
  | .removeDownload _ => none
  | .setDownloadInterrupted _ _ => o.map setInterruptedRec
  | .addLocalDownload _ game fileName fileSize =>
      match o with
      | some d => some d
      | none => some (mkLocalDownload game fileName fileSize)
  | .downloadProgress _ received total => o.map (setProgressRec received total)
  | .setDownloadSpeed _ => o
  | .setDownloadSpeeds _ => o

/-! ## Startup recovery (index.ts lines 528-560)

The `context.once` block reads the persisted files map once into the
`downloads` constant and then dispatches actions against the store; the final
contents of the files map are obtained by folding the dispatched actions over
the snapshot.  The `removeDownload` dispatched after a successful
`fs.removeAsync` in the never-started branch resolves asynchronously, but
since every dispatched action addresses a distinct record id (at most a
`setDownloadInterrupted` and sweep-`removeDownload` pair per id, or two
removals), the final map does not depend on that interleaving; the embedding
applies the actions in program-text order with `fs.removeAsync`
succeeding. -/

/-- The `realSize` computation (index.ts lines 545-550):
`(size !== 0) ? size - sum((chunks || []).map(c => c.size)) : 0`,
followed by `if (isNaN(realSize)) realSize = 0`. An `undefined` size compares
`!== 0` as true and then poisons the subtraction to `NaN`, which the `isNaN`
guard maps to `0`; a negative difference is NOT `NaN` and passes through. -/
def realSize (d : IDownload) : Int :=
  let raw : Option Int :=
    if d.size ≠ some 0 then
      jsSub d.size (jsSum (List.map (fun c => c.size) (d.chunks.getD [])))
    else some 0
  raw.getD 0

/-- The sizes of all chunks when every one is defined (for stating the
`realSize` characterization independently of the `NaN` bookkeeping). -/
def chunkSizesOf (d : IDownload) : Option (List Int) :=
  optionSeq (List.map (fun c => c.size) (d.chunks.getD []))

/-- The states selected by the recovery filter (index.ts line 530):
`['init', 'started', 'pending'].indexOf(downloads[id].state) !== -1`. -/
def recoveryStates : List DLState :=
  [.dlInit, .started, .pending]

/-- The single store action the `interruptedDownloads.forEach` body dispatches
for one record (index.ts lines 531-552): a `removeDownload` when the urls were
never retrieved (`!truthy(urls)`), otherwise `setDownloadInterrupted` with the
computed `realSize`. -/
def recoverAction (id : String) (d : IDownload) : Action :=
  if truthyArr d.urls = false then .removeDownload id
  else .setDownloadInterrupted id (realSize d)

/-- The partial files deleted by the `forEach` body for one record
(index.ts lines 536-540): `fs.removeAsync(path.join(downloadPath, localPath))`
only in the never-started branch and only when both the download path and the
record's `localPath` are defined (`!== undefined`). -/
def recoverDeletes (downloadPath : Option String) (_id : String) (d : IDownload) :
    List String :=
  if truthyArr d.urls = false then
    match downloadPath, d.localPath with
    | some dp, some lp => [pathJoin dp lp]
    | _, _ => []
  else []

/-- All actions the startup block dispatches against the snapshot: the
recovery pass over the records in a recovery state (lines 529-553), followed by
the sweep removing every download without a truthy `localPath`
(lines 554-560). -/
def startupActions (files : Files) : List Action :=
  List.map (fun p => recoverAction p.1 p.2)
    (List.filter (fun p => recoveryStates.contains p.2.state) files)
  ++ List.map (fun p => Action.removeDownload p.1)
      (List.filter (fun p => truthyStr p.2.localPath = false) files)

/-- All partial files the startup block deletes from disk. -/
def startupDeletes (downloadPath : Option String) (files : Files) : List String :=
  (List.filter (fun p => recoveryStates.contains p.2.state) files).flatMap
    (fun p => recoverDeletes downloadPath p.1 p.2)

/-- The persisted files map after the startup block has run. -/
def startupFinal (files : Files) : Files :=
  List.foldl applyAction files (startupActions files)

/-! ## The download-directory change handler (index.ts lines 116-176) -/

/-- The two event kinds `fs.watch` delivers to the handler. -/
inductive FsEvt
  | update
  | rename
deriving DecidableEq, Repr

/-- Ambient data the closure produced by `genDownloadChangeHandler` reads:
the module-level `watchEnabled` flag, the captured download path and game id,
the store's files map (for `findDownload`), the outcome of `fs.statAsync`
(`none` models an `ENOENT`-style failure), the id `shortid()` generates, and
the `normalize` function captured from `getNormalizeFunc`. -/
structure HandlerEnv where
  watchEnabled : Bool
  currentDownloadPath : String
  gameId : String
  files : Files
  statSize : String → Option Int
  freshId : String
  normalize : String → String

/-- The closure state of the handler: the `updateTimers` object (modelled as
the list of file names holding a defined entry — the source never assigns into
it) and the captured `nameIdMap`. -/
structure HandlerState where
  updateTimers : List String
  nameIdMap : List (String × String)
deriving DecidableEq, Repr

/-- `const updateTimers = {}` together with the (initially empty or
pre-populated) `nameIdMap`; `genDownloadChangeHandler` always starts with no
timers. -/
def handlerStart (nameIdMap : List (String × String)) : HandlerState :=
  { updateTimers := [], nameIdMap := nameIdMap }

/-- Assoc-list read, modelling `map[key]`. -/
def mapGet (m : List (String × String)) (k : String) : Option String :=
  (List.find? (fun p => decide (p.1 = k)) m).map (·.2)

/-- Assoc-list write, modelling `map[key] = value`. -/
def mapPut (m : List (String × String)) (k v : String) : List (String × String) :=
  if (List.find? (fun p => decide (p.1 = k)) m).isSome then
    List.map (fun p => if p.1 = k then (p.1, v) else p) m
  else m ++ [(k, v)]

/-- `findDownload` from the handler (index.ts lines 125-130): the first id
whose record's `localPath` equals the file name. -/
def findDownload (files : Files) (fileName : String) : Option String :=
  (List.find? (fun p => decide (p.2.localPath = some fileName)) files).map (·.1)

/-- The `update` branch of the handler (index.ts lines 139-151): only acts
when `updateTimers[fileName] !== undefined` (the source never stores anything
into `updateTimers`); in that case it would re-arm a 5s timer that stats the
file and dispatches `downloadProgress` when a matching download exists. -/
def dchUpdate (env : HandlerEnv) (st : HandlerState) (fn : String) :
    HandlerState × List Action :=
  if st.updateTimers.contains fn then
    match env.statSize (pathJoin env.currentDownloadPath fn) with
    | some sz =>
        match findDownload env.files fn with
        | some dlId => (st, [.downloadProgress dlId sz sz])
        | none => (st, [])
    | none => (st, [])
  else (st, [])

/-- The `rename` branch of the handler (index.ts lines 152-174): stat the
file; on success register/import it (a fresh id dispatches
`addLocalDownload`), on an `ENOENT`-style failure remove the download whose
name is known in `nameIdMap`. -/
def dchRename (env : HandlerEnv) (st : HandlerState) (fn : String) :
    HandlerState × List Action :=
  match env.statSize (pathJoin env.currentDownloadPath fn) with
  | some sz =>
      match findDownload env.files fn with
      | some dlId =>
          ({ st with nameIdMap := mapPut st.nameIdMap (env.normalize fn) dlId }, [])
      | none =>
          ({ st with nameIdMap := mapPut st.nameIdMap (env.normalize fn) env.freshId },
           [.addLocalDownload env.freshId env.gameId fn sz])
  | none =>
      match mapGet st.nameIdMap (env.normalize fn) with
      | some dlId => (st, [.removeDownload dlId])
      | none => (st, [])

/-- One invocation of the handler returned by `genDownloadChangeHandler`
(index.ts lines 132-175). Returns the new closure state and the list of store
actions the invocation dispatches (including those dispatched from its timer
and promise callbacks, with `fs` calls resolved through `env.statSize`). -/
def downloadChangeHandler (env : HandlerEnv) (st : HandlerState)
    (evt : FsEvt) (fileName : Option String) : HandlerState × List Action :=
  if !env.watchEnabled || decide (fileName = none) || !knownArchiveExt fileName then
    (st, [])
  else
    match evt with
    | .update => dchUpdate env st (fileName.getD "")
    | .rename => dchRename env st (fileName.getD "")

/-- Folding a sequence of watch events through the handler, collecting every
dispatched action. -/
def runHandler (env : HandlerEnv) (st : HandlerState) :
    List (FsEvt × Option String) → HandlerState × List Action
  | [] => (st, [])
  | (evt, fn) :: rest =>
      let r := downloadChangeHandler env st evt fn
      let r2 := runHandler env r.1 rest
      (r2.1, r.2 ++ r2.2)

/-- Whether an action is the `downloadProgress` dispatch (the only store
mutation the `update` branch of the handler could perform). -/
def Action.isProgress : Action → Bool
  | .downloadProgress _ _ _ => true
  | _ => false

/-- The filter stage of `refreshDownloads` (index.ts line 68): only names with
a known archive extension survive a directory scan. -/
def refreshCandidates (names : List String) : List String :=
  List.filter (fun n => knownArchiveExt (some n)) names

/-! ## Importing a file via `move` (index.ts lines 291-346) -/

/-- `removeArchive` (index.ts lines 291-303): after deleting the destination
file, every download whose `localPath` equals the destination's base name is
removed from the store. The source dispatches one `removeDownload` per
matching id; folding them over the files map. -/
def removeArchiveState (files : Files) (baseName : String) : Files :=
  List.foldl applyAction files
    (List.map (fun p => Action.removeDownload p.1)
      (List.filter (fun p => decide (p.2.localPath = some baseName)) files))

/-- Outcomes of the async steps of one `move` run: whether
`fs.statAsync(destination)` initially succeeds (the file exists), whether the
user answers the replace dialog with Cancel, and whether `fs.copyAsync` and
the final `fs.statAsync` succeed. `destSize` is the size the final stat
reports. -/
structure MoveEnv where
  destExists : Bool
  userCancels : Bool
  copyOk : Bool
  statOk : Bool
  destSize : Int
deriving DecidableEq, Repr

/-- The effect of one `move(api, source, destination)` run (index.ts lines
318-346) on the persisted files map, for a fresh `dlId`, the active game
`gameMode` and `baseName = path.basename(destination)`:
stat the destination (+ `queryReplace`/`removeArchive` when it exists, where a
Cancel rejects with `UserCanceled`), `addLocalDownload(dlId, gameMode,
baseName, 0)`, copy, stat, and on success dispatch `downloadProgress`; any
rejection reaches the final catch, which dispatches `removeDownload(dlId)`. -/
def moveRun (env : MoveEnv) (files : Files) (dlId gameMode baseName : String) :
    Files :=
  if env.destExists && env.userCancels then
    applyAction files (.removeDownload dlId)
  else
    let files1 := if env.destExists then removeArchiveState files baseName else files
    let files2 := applyAction files1 (.addLocalDownload dlId gameMode baseName 0)
    if env.copyOk && env.statOk then
      applyAction files2 (.downloadProgress dlId env.destSize env.destSize)
    else
      applyAction files2 (.removeDownload dlId)

/-! ## The speed callback and the `setDownloadSpeeds` debouncer
(index.ts lines 509-524) -/

/-- Modelled from the spec: the Throughput Meter (`DownloadManager`, not under
the sources) "aggregates per-worker byte deltas into a rolling window (fixed
time span) to compute an instantaneous rate" (§4.4); the rate passed to the
speed callback is the byte sum of the window's deltas divided by the window
span in seconds. -/
def meterRate (deltas : List Nat) (spanSec : Nat) : Int :=
  (deltas.sum : Int) / (spanSec : Int)

/-- The speed callback handed to the `DownloadManager` constructor (index.ts
lines 517-524). State is the persisted `downloads.speed` value; the result is
the new persisted value together with whether `speedsDebouncer.schedule()` was
called:
`if (speed !== 0 || store.speed !== 0) { dispatch(setDownloadSpeed(speed));
 speedsDebouncer.schedule(); }`. -/
def speedCallback (speed : Int) (prevSpeed : Int) : Int × Bool :=
  if speed ≠ 0 ∨ prevSpeed ≠ 0 then (speed, true) else (prevSpeed, false)

/-- The debounce interval of `speedsDebouncer` (index.ts line 513). -/
def speedsDebounceMs : Nat := 10000

/-- Modelled from the spec: `Debouncer` (`util/Debouncer`, not under the
sources) delays its function by the configured interval and collapses repeated
`schedule()` calls — "reporting is throttled to a fixed interval" (§4.4,
§4.4's throttle; constructed with `triggerImmediately = false`, i.e. trailing
edge). `debounceRun interval scheduleTimes pendingFire` yields the times at
which the debounced function runs, given the (time-ordered) `schedule()` call
times: a `schedule()` at time `t` while a pending fire has not yet happened
re-arms the timer to `t + interval`; a pending fire at time `f ≤ t` has
already run. -/
def debounceRun (interval : Nat) : List Nat → Option Nat → List Nat
  | [], none => []
  | [], some f => [f]
  | t :: ts, none => debounceRun interval ts (some (t + interval))
  | t :: ts, some f =>
      if f ≤ t then f :: debounceRun interval ts (some (t + interval))
      else debounceRun interval ts (some (t + interval))

/-- The times at which `setDownloadSpeeds` is dispatched, given the times at
which speed callbacks called `speedsDebouncer.schedule()`. -/
def setDownloadSpeedsTimes (scheduleTimes : List Nat) : List Nat :=
  debounceRun speedsDebounceMs scheduleTimes none

/-! ## Association-list lemmas about the files map -/

theorem recoverDeletes_eq (dp : Option String) (id : String) (d : IDownload) :
    recoverDeletes dp id d =
      if truthyArr d.urls = false then
        match dp, d.localPath with
        | some dpv, some lpv => [pathJoin dpv lpv]
        | _, _ => []
      else [] :=
  rfl

theorem getFile_of_mem {files : Files} {id : String} {d : IDownload}
    (hnd : keysNodup files) (hmem : (id, d) ∈ files) :
    getFile files id = some d := by
  induction files with
  | nil => cases hmem
  | cons p rest ih =>
    rw [keysNodup, List.map_cons, List.nodup_cons] at hnd
    rcases List.mem_cons.mp hmem with heq | hmem'
    · subst heq
      simp [getFile]
    · have hne : p.1 ≠ id := by
        intro h
        exact hnd.1 (h ▸ List.mem_map_of_mem Prod.fst hmem')
      rw [getFile, if_neg hne]
      exact ih hnd.2 hmem'

theorem filterKey_nil_of_not_mem {l : Files} {id : String}
    (h : id ∉ List.map Prod.fst l) :
    List.filter (fun p => decide (p.1 = id)) l = [] := by
  rw [List.filter_eq_nil_iff]
  intro p hp hdec
  apply h
  rw [← of_decide_eq_true hdec]
  exact List.mem_map_of_mem Prod.fst hp

theorem filterKey_filter {l : Files} (P : String × IDownload → Bool)
    {id : String} {d : IDownload}
    (hnd : keysNodup l) (hmem : (id, d) ∈ l) :
    List.filter (fun p => decide (p.1 = id)) (List.filter P l) =
      if P (id, d) then [(id, d)] else [] := by
  induction l with
  | nil => cases hmem
  | cons p rest ih =>
    rw [keysNodup, List.map_cons, List.nodup_cons] at hnd
    rcases List.mem_cons.mp hmem with heq | hmem'
    · subst heq
      have hnil : List.filter (fun p => decide (p.1 = id)) (List.filter P rest) = [] := by
        apply filterKey_nil_of_not_mem
        intro hin
        apply hnd.1
        rcases List.mem_map.mp hin with ⟨q, hq, hq1⟩
        exact List.mem_map.mpr ⟨q, List.mem_of_mem_filter hq, hq1⟩
      by_cases hP : P (id, d) = true
      · rw [List.filter_cons, if_pos hP, List.filter_cons, if_pos (by simp), hnil,
          if_pos hP]
      · rw [List.filter_cons, if_neg hP, hnil, if_neg hP]
    · have hne : p.1 ≠ id := by
        intro h
        exact hnd.1 (h ▸ List.mem_map_of_mem Prod.fst hmem')
      by_cases hP : P p = true
      · rw [List.filter_cons, if_pos hP, List.filter_cons,
          if_neg (by simpa using hne)]
        exact ih hnd.2 hmem'
      · rw [List.filter_cons, if_neg hP]
        exact ih hnd.2 hmem'

theorem getFile_filter_ne (files : Files) (j k : String) :
    getFile (List.filter (fun p => !(decide (p.1 = j))) files) k =
      if j = k then none else getFile files k := by
  induction files with
  | nil => simp [getFile]
  | cons p rest ih =>
    obtain ⟨a, e⟩ := p
    rw [List.filter_cons]
    by_cases hj : a = j
    · subst hj
      rw [if_neg (by simp), ih]
      by_cases hk : a = k
      · subst hk
        simp [getFile]
      · simp [getFile, hk]
    · rw [if_pos (by simp [hj])]
      by_cases hk : a = k
      · subst hk
        have hja : ¬j = a := fun h => hj h.symm
        simp [getFile, hja]
      · simp [getFile, hk, ih]

theorem getFile_mapKey (files : Files) (f : IDownload → IDownload) (j k : String) :
    getFile (List.map (fun p => if p.1 = j then (p.1, f p.2) else p) files) k =
      if j = k then (getFile files k).map f else getFile files k := by
  induction files with
  | nil => simp [getFile]
  | cons p rest ih =>
    obtain ⟨a, e⟩ := p
    rw [List.map_cons]
    by_cases hj : a = j
    · subst hj
      by_cases hk : a = k
      · subst hk
        simp [getFile]
      · simp only [if_pos rfl]
        simp [getFile, hk, ih]
    · by_cases hk : a = k
      · subst hk
        have hja : ¬j = a := fun h => hj h.symm
        simp [getFile, hj, hja]
      · simp [getFile, hj, hk, ih]

theorem getFile_append_single (files : Files) (j : String) (v : IDownload)
    (k : String) :
    getFile (files ++ [(j, v)]) k =
      if j = k then
        match getFile files k with
        | some d => some d
        | none => some v
      else getFile files k := by
  induction files with
  | nil =>
    by_cases hjk : j = k
    · subst hjk
      simp [getFile]
    · simp [getFile, hjk]
  | cons p rest ih =>
    obtain ⟨a, e⟩ := p
    by_cases hk : a = k
    · subst hk
      by_cases hjk : j = a <;> simp [getFile, hjk]
    · simp [getFile, hk, ih]

theorem applyAction_getFile (files : Files) (a : Action) (k : String) :
    getFile (applyAction files a) k =
      if a.target = some k then applyPoint (getFile files k) a
      else getFile files k := by
  cases a with
  | removeDownload j =>
    rw [applyAction, getFile_filter_ne files j k]
    by_cases hjk : j = k
    · subst hjk
      simp [Action.target, applyPoint]
    · simp [Action.target, applyPoint, hjk]
  | setDownloadInterrupted j r =>
    rw [applyAction, getFile_mapKey files _ j k]
    by_cases hjk : j = k
    · subst hjk
      simp [Action.target, applyPoint]
    · simp [Action.target, applyPoint, hjk]
  | addLocalDownload j game fn sz =>
    rw [applyAction, getFile_append_single files j _ k]
    by_cases hjk : j = k
    · subst hjk
      simp only [Action.target, if_pos rfl, applyPoint]
    · simp [Action.target, applyPoint, hjk]
  | downloadProgress j r t =>
    rw [applyAction, getFile_mapKey files _ j k]
    by_cases hjk : j = k
    · subst hjk
      simp [Action.target, applyPoint]
    · simp [Action.target, applyPoint, hjk]
  | setDownloadSpeed s =>
    simp [applyAction, Action.target]
  | setDownloadSpeeds h =>
    simp [applyAction, Action.target]

theorem getFile_foldl (acts : List Action) (files : Files) (k : String) :
    getFile (List.foldl applyAction files acts) k =
      List.foldl applyPoint (getFile files k)
        (List.filter (fun a => decide (a.target = some k)) acts) := by
  induction acts generalizing files with
  | nil => rfl
  | cons a rest ih =>
    rw [List.foldl_cons, ih, List.filter_cons]
    by_cases h : a.target = some k
    · rw [if_pos (by simp [h]), List.foldl_cons, applyAction_getFile, if_pos h]
    · rw [if_neg (by simp [h]), applyAction_getFile, if_neg h]

theorem filter_target_map (l : Files) (g : String → IDownload → Action)
    (id : String) (hg : ∀ k e, (g k e).target = some k) :
    List.filter (fun a => decide (a.target = some id))
        (List.map (fun p => g p.1 p.2) l) =
      List.map (fun p => g p.1 p.2) (List.filter (fun p => decide (p.1 = id)) l) := by
  induction l with
  | nil => rfl
  | cons p rest ih =>
    rw [List.map_cons, List.filter_cons, List.filter_cons]
    by_cases h : p.1 = id
    · rw [if_pos (by simp [hg, h]), if_pos (by simp [h]), List.map_cons, ih]
    · rw [if_neg (by simp [hg, h]), if_neg (by simp [h]), ih]

theorem recoverAction_target (k : String) (e : IDownload) :
    (recoverAction k e).target = some k := by
  rw [recoverAction]
  by_cases h : truthyArr e.urls = false
  · rw [if_pos h, Action.target]
  · rw [if_neg h, Action.target]

theorem startupActions_filter_target (files : Files) (id : String)
    (d : IDownload) (hnd : keysNodup files) (hmem : (id, d) ∈ files) :
    List.filter (fun a => decide (a.target = some id)) (startupActions files) =
      (if recoveryStates.contains d.state then [recoverAction id d] else [])
      ++ (if truthyStr d.localPath = false then [Action.removeDownload id]
          else []) := by
  rw [startupActions, List.filter_append]
  rw [filter_target_map _ (fun k e => recoverAction k e) id
    (fun k e => recoverAction_target k e)]
  rw [filter_target_map _ (fun k _ => Action.removeDownload k) id
    (fun _ _ => rfl)]
  rw [filterKey_filter _ hnd hmem, filterKey_filter _ hnd hmem]
  by_cases hs : (recoveryStates.contains d.state) = true
  · by_cases hl : (truthyStr d.localPath = false : Bool) = true
    · rw [if_pos hs, if_pos hl, if_pos hs, if_pos (of_decide_eq_true hl)]
      rfl
    · rw [if_pos hs, if_neg hl, if_pos hs,
        if_neg (fun h => hl (decide_eq_true h))]
      rfl
  · by_cases hl : (truthyStr d.localPath = false : Bool) = true
    · rw [if_neg hs, if_pos hl, if_neg hs, if_pos (of_decide_eq_true hl)]
      rfl
    · rw [if_neg hs, if_neg hl, if_neg hs,
        if_neg (fun h => hl (decide_eq_true h))]
      rfl

theorem getFile_startupFinal (files : Files) (id : String) (d : IDownload)
    (hnd : keysNodup files) (hmem : (id, d) ∈ files) :
    getFile (startupFinal files) id =
      List.foldl applyPoint (some d)
        ((if recoveryStates.contains d.state then [recoverAction id d] else [])
         ++ (if truthyStr d.localPath = false then [Action.removeDownload id]
             else [])) := by
  rw [startupFinal, getFile_foldl,
    startupActions_filter_target files id d hnd hmem, getFile_of_mem hnd hmem]

/-! ## Supporting lemmas: `jsSum`, the debouncer, the handler, `move` -/

theorem foldl_jsAdd_none (l : List (Option Int)) :
    List.foldl jsAdd none l = none := by
  induction l with
  | nil => rfl
  | cons x rest ih =>
    rw [List.foldl_cons]
    have hx : jsAdd none x = none := by cases x <;> rfl
    rw [hx, ih]

theorem foldl_jsAdd_some (l : List (Option Int)) :
    ∀ a : Int, List.foldl jsAdd (some a) l =
      (optionSeq l).map (fun xs => a + xs.sum) := by
  induction l with
  | nil => intro a; simp [optionSeq]
  | cons x rest ih =>
    intro a
    cases x with
    | none =>
      rw [List.foldl_cons]
      have hx : jsAdd (some a) none = none := rfl
      rw [hx, foldl_jsAdd_none, optionSeq]
      rfl
    | some v =>
      rw [List.foldl_cons]
      have hx : jsAdd (some a) (some v) = some (a + v) := rfl
      rw [hx, ih, optionSeq]
      cases h : optionSeq rest with
      | none => rfl
      | some xs =>
        simp only [Option.map_some', List.sum_cons]
        congr 1
        omega

theorem jsSum_eq (l : List (Option Int)) :
    jsSum l = (optionSeq l).map List.sum := by
  rw [jsSum, foldl_jsAdd_some]
  cases h : optionSeq l with
  | none => rfl
  | some xs => simp

theorem realSize_of_defined (d : IDownload) (n : Int) (cs : List Int)
    (hn : d.size = some n) (h0 : n ≠ 0) (hcs : chunkSizesOf d = some cs) :
    realSize d = n - cs.sum := by
  rw [chunkSizesOf] at hcs
  rw [realSize, if_pos (by rw [hn]; exact fun h => h0 (Option.some_inj.mp h)),
    hn, jsSum_eq, hcs]
  rfl

theorem realSize_zero (d : IDownload)
    (h : d.size = some 0 ∨ d.size = none ∨ chunkSizesOf d = none) :
    realSize d = 0 := by
  rcases h with h | h | h
  · rw [realSize, if_neg (by rw [h]; exact fun hc => hc rfl)]
    rfl
  · rw [realSize]
    by_cases hc : d.size ≠ some 0
    · rw [if_pos hc, h]
      have : jsSub none (jsSum (List.map (fun c => c.size) (d.chunks.getD []))) = none := by
        cases jsSum (List.map (fun c => c.size) (d.chunks.getD [])) <;> rfl
      rw [this]
      rfl
    · rw [if_neg hc]
      rfl
  · rw [chunkSizesOf] at h
    rw [realSize]
    by_cases hc : d.size ≠ some 0
    · rw [if_pos hc, jsSum_eq, h]
      have : jsSub d.size none = none := by cases d.size <;> rfl
      rw [Option.map_none', this]
      rfl
    · rw [if_neg hc]
      rfl

theorem debounceRun_pairwise (interval : Nat) (ts : List Nat) :
    ∀ g : Nat, List.Pairwise (· ≤ ·) ts → (∀ t ∈ ts, g ≤ t + interval) →
      List.Pairwise (fun a b => a + interval ≤ b)
        (debounceRun interval ts (some g)) ∧
      ∀ x ∈ debounceRun interval ts (some g), g ≤ x := by
  induction ts with
  | nil =>
    intro g _ _
    refine ⟨List.pairwise_singleton _ _, ?_⟩
    intro x hx
    rw [debounceRun, List.mem_singleton] at hx
    omega
  | cons t rest ih =>
    intro g hs hg
    rw [List.pairwise_cons] at hs
    have hrec := ih (t + interval) hs.2
      (fun u hu => by have := hs.1 u hu; omega)
    have hgt : g ≤ t + interval := hg t (List.mem_cons_self t rest)
    by_cases hft : g ≤ t
    · rw [debounceRun, if_pos hft]
      refine ⟨?_, ?_⟩
      · rw [List.pairwise_cons]
        refine ⟨fun x hx => ?_, hrec.1⟩
        have := hrec.2 x hx
        omega
      · intro x hx
        rcases List.mem_cons.mp hx with rfl | hx'
        · exact Nat.le_refl x
        · have := hrec.2 x hx'
          omega
    · rw [debounceRun, if_neg hft]
      exact ⟨hrec.1, fun x hx => by have := hrec.2 x hx; omega⟩

theorem dch_guard (env : HandlerEnv) (st : HandlerState) (evt : FsEvt)
    (fn : Option String)
    (hg : (!env.watchEnabled || decide (fn = none) || !knownArchiveExt fn) = true) :
    downloadChangeHandler env st evt fn = (st, []) := by
  show (if (!env.watchEnabled || decide (fn = none) || !knownArchiveExt fn) = true
        then ((st, []) : HandlerState × List Action)
        else match evt with
             | FsEvt.update => dchUpdate env st (fn.getD "")
             | FsEvt.rename => dchRename env st (fn.getD "")) = (st, [])
  rw [hg]
  rfl

theorem dch_update_eq (env : HandlerEnv) (st : HandlerState) (fn : Option String)
    (hg : (!env.watchEnabled || decide (fn = none) || !knownArchiveExt fn) = false) :
    downloadChangeHandler env st FsEvt.update fn = dchUpdate env st (fn.getD "") := by
  show (if (!env.watchEnabled || decide (fn = none) || !knownArchiveExt fn) = true
        then ((st, []) : HandlerState × List Action)
        else dchUpdate env st (fn.getD "")) = dchUpdate env st (fn.getD "")
  rw [hg]
  rfl

theorem dch_rename_eq (env : HandlerEnv) (st : HandlerState) (fn : Option String)
    (hg : (!env.watchEnabled || decide (fn = none) || !knownArchiveExt fn) = false) :
    downloadChangeHandler env st FsEvt.rename fn = dchRename env st (fn.getD "") := by
  show (if (!env.watchEnabled || decide (fn = none) || !knownArchiveExt fn) = true
        then ((st, []) : HandlerState × List Action)
        else dchRename env st (fn.getD "")) = dchRename env st (fn.getD "")
  rw [hg]
  rfl

theorem dchUpdate_idle (env : HandlerEnv) (st : HandlerState) (fn : String)
    (hcont : st.updateTimers.contains fn = false) :
    dchUpdate env st fn = (st, []) := by
  show (if st.updateTimers.contains fn = true
        then _ else ((st, []) : HandlerState × List Action)) = (st, [])
  rw [hcont]
  rfl

theorem dchRename_inv (env : HandlerEnv) (st : HandlerState) (fn : String) :
    (dchRename env st fn).1.updateTimers = st.updateTimers ∧
    (∀ a ∈ (dchRename env st fn).2, a.isProgress = false) := by
  unfold dchRename
  cases env.statSize (pathJoin env.currentDownloadPath fn) with
  | some sz =>
    cases findDownload env.files fn with
    | some dlId =>
      exact ⟨rfl, fun a ha => absurd ha (List.not_mem_nil a)⟩
    | none =>
      refine ⟨rfl, ?_⟩
      intro a ha
      cases ha with
      | head => rfl
      | tail _ htail => cases htail
  | none =>
    cases mapGet st.nameIdMap (env.normalize fn) with
    | some dlId =>
      refine ⟨rfl, ?_⟩
      intro a ha
      cases ha with
      | head => rfl
      | tail _ htail => cases htail
    | none =>
      exact ⟨rfl, fun a ha => absurd ha (List.not_mem_nil a)⟩

theorem handlerStep_inv (env : HandlerEnv) (st : HandlerState) (evt : FsEvt)
    (fn : Option String) (h : st.updateTimers = []) :
    (downloadChangeHandler env st evt fn).1.updateTimers = [] ∧
    (∀ a ∈ (downloadChangeHandler env st evt fn).2, a.isProgress = false) ∧
    (evt = FsEvt.update → (downloadChangeHandler env st evt fn).2 = []) := by
  cases hgb : (!env.watchEnabled || decide (fn = none) || !knownArchiveExt fn) with
  | true =>
    rw [dch_guard env st evt fn hgb]
    exact ⟨h, fun a ha => absurd ha (List.not_mem_nil a), fun _ => rfl⟩
  | false =>
    cases evt with
    | update =>
      have hcont : st.updateTimers.contains (fn.getD "") = false := by
        rw [h]
        rfl
      rw [dch_update_eq env st fn hgb, dchUpdate_idle env st _ hcont]
      exact ⟨h, fun a ha => absurd ha (List.not_mem_nil a), fun _ => rfl⟩
    | rename =>
      rw [dch_rename_eq env st fn hgb]
      have hr := dchRename_inv env st (fn.getD "")
      exact ⟨by rw [hr.1, h], hr.2, fun habs => FsEvt.noConfusion habs⟩

theorem runHandler_inv (env : HandlerEnv)
    (evts : List (FsEvt × Option String)) :
    ∀ st : HandlerState, st.updateTimers = [] →
      (runHandler env st evts).1.updateTimers = [] ∧
      (∀ a ∈ (runHandler env st evts).2, a.isProgress = false) ∧
      ((∀ e ∈ evts, e.1 = FsEvt.update) → (runHandler env st evts).2 = []) := by
  induction evts with
  | nil =>
    intro st h
    refine ⟨h, ?_, ?_⟩
    · intro a ha
      cases ha
    · intro _
      rfl
  | cons e rest ih =>
    intro st h
    obtain ⟨evt, fn⟩ := e
    have hstep := handlerStep_inv env st evt fn h
    have hrec := ih (downloadChangeHandler env st evt fn).1 hstep.1
    rw [runHandler]
    refine ⟨hrec.1, ?_, ?_⟩
    · intro a ha
      rcases List.mem_append.mp ha with h1 | h2
      · exact hstep.2.1 a h1
      · exact hrec.2.1 a h2
    · intro hall
      have h1 : (downloadChangeHandler env st evt fn).2 = [] :=
        hstep.2.2 (hall (evt, fn) (List.mem_cons_self _ _))
      have h2 := hrec.2.2 (fun e he => hall e (List.mem_cons_of_mem _ he))
      rw [h1, h2]
      rfl

theorem key_unique {files : Files} {k : String} {a b : IDownload}
    (hnd : keysNodup files) (h1 : (k, a) ∈ files) (h2 : (k, b) ∈ files) :
    a = b := by
  have ha := getFile_of_mem hnd h1
  have hb := getFile_of_mem hnd h2
  rw [ha] at hb
  exact Option.some_inj.mp hb

theorem removeAction_fresh (files : Files) (dlId : String)
    (h : dlId ∉ List.map Prod.fst files) :
    applyAction files (.removeDownload dlId) = files := by
  rw [applyAction]
  apply List.filter_eq_self.mpr
  intro p hp
  have hne : p.1 ≠ dlId := fun heq => h (heq ▸ List.mem_map_of_mem Prod.fst hp)
  simp [hne]

theorem addLocal_then_remove (files : Files) (dlId g bn : String) (sz : Int)
    (h : dlId ∉ List.map Prod.fst files) :
    applyAction (applyAction files (.addLocalDownload dlId g bn sz))
      (.removeDownload dlId) = files := by
  rw [applyAction, applyAction, List.filter_append]
  have h1 : List.filter (fun p => !(decide (p.1 = dlId))) files = files := by
    apply List.filter_eq_self.mpr
    intro p hp
    have hne : p.1 ≠ dlId := fun heq => h (heq ▸ List.mem_map_of_mem Prod.fst hp)
    simp [hne]
  rw [h1]
  simp

theorem foldl_removes (ids : List String) (files : Files) :
    List.foldl applyAction files (List.map Action.removeDownload ids) =
      List.filter (fun p => !(ids.contains p.1)) files := by
  induction ids generalizing files with
  | nil =>
    simp [List.filter_eq_self]
  | cons i rest ih =>
    rw [List.map_cons, List.foldl_cons, applyAction, ih, List.filter_filter]
    apply List.filter_congr
    intro p _
    by_cases hpi : p.1 = i
    · simp [hpi]
    · have : ¬(i == p.1) = true := by
        simp only [beq_iff_eq]
        exact fun heq => hpi heq.symm
      simp [hpi, List.contains, this]

theorem contains_keys_filter {files : Files} (P : String × IDownload → Bool)
    (hnd : keysNodup files) :
    ∀ p ∈ files, (List.map Prod.fst (List.filter P files)).contains p.1 = P p := by
  intro p hp
  by_cases hP : P p = true
  · rw [hP]
    have : p.1 ∈ List.map Prod.fst (List.filter P files) :=
      List.mem_map_of_mem Prod.fst (List.mem_filter.mpr ⟨hp, hP⟩)
    exact List.elem_eq_true_of_mem this
  · rw [Bool.of_not_eq_true hP]
    cases hc : (List.map Prod.fst (List.filter P files)).contains p.1 with
    | false => rfl
    | true =>
    exfalso
    have hmem : p.1 ∈ List.map Prod.fst (List.filter P files) :=
      List.mem_of_elem_eq_true hc
    rcases List.mem_map.mp hmem with ⟨q, hq, hq1⟩
    have hqf := List.mem_filter.mp hq
    obtain ⟨qk, qd⟩ := q
    obtain ⟨pk, pd⟩ := p
    have hkk : qk = pk := hq1
    subst hkk
    have : qd = pd := key_unique hnd hqf.1 hp
    subst this
    exact hP hqf.2

theorem removeArchiveState_eq (files : Files) (bn : String)
    (hnd : keysNodup files) :
    removeArchiveState files bn =
      List.filter (fun p => !(decide (p.2.localPath = some bn))) files := by
  rw [removeArchiveState]
  have hmm : List.map (fun p => Action.removeDownload p.1)
      (List.filter (fun p => decide (p.2.localPath = some bn)) files) =
      List.map Action.removeDownload (List.map Prod.fst
        (List.filter (fun p => decide (p.2.localPath = some bn)) files)) := by
    rw [List.map_map]
    rfl
  rw [hmm, foldl_removes]
  apply List.filter_congr
  intro p hp
  rw [contains_keys_filter _ hnd p hp]

/-! ## Concrete sample records used by counterexamples and witnesses -/

/-- A paused record whose candidate urls were never retrieved. -/
def recPausedNoUrls : IDownload :=
  ⟨.paused, none, some "stuck.zip", some 100, none, none, some "game1"⟩

/-- An `init` record whose candidate urls were never retrieved. -/
def recNeverStartedA : IDownload :=
  ⟨.dlInit, none, some "partial-a.zip", some 50, none, none, some "game1"⟩

/-- A `pending` record whose candidate urls were never retrieved. -/
def recNeverStartedB : IDownload :=
  ⟨.pending, none, some "partial-b.zip", some 60, none, none, some "game1"⟩

/-- A record whose chunk bookkeeping (150 received bytes) exceeds its total
size (100 bytes) — corrupted bookkeeping. -/
def recNegChunks : IDownload :=
  ⟨.started, some ["http://host/f.zip"], some "f.zip", some 100, none,
   some [⟨some 150⟩], some "game1"⟩

/-- A healthy resumable record: size 10, one chunk with 4 bytes of
bookkeeping. -/
def recResumable : IDownload :=
  ⟨.started, some ["http://host/g.zip"], some "g.zip", some 10, none,
   some [⟨some 4⟩], some "game1"⟩

/-- A paused record with resolved candidate urls. -/
def recPausedWithUrls : IDownload :=
  ⟨.paused, some ["http://host/p.zip"], some "p.zip", some 70, none, none,
   some "game1"⟩

/-- A `started` record with resolved candidate urls and unknown size. -/
def recStartedWithUrls : IDownload :=
  ⟨.started, some ["http://host/q.zip"], some "q.zip", some 0, none, none,
   some "game1"⟩

/-- A finished record with no `localPath`. -/
def recFinishedNoPath : IDownload :=
  ⟨.finished, some ["http://host/r.zip"], none, some 5, none, none,
   some "game1"⟩

/-- A finished record occupying the destination file name `file.zip`. -/
def recImportedOver : IDownload :=
  ⟨.finished, some [], some "file.zip", some 10, some 10, none, some "game1"⟩

/-! ## The claims -/

/-- C1 (counterexample): the claim says every persisted record that is not in
a terminal state (`finished`/`failed`) and whose candidate urls were never
resolved is removed at startup. The code's recovery filter
(index.ts line 530) only selects the states `init`/`started`/`pending`, so a
`paused` record — non-terminal, and counted as live by the badge filter at
line 391 — with `urls` never set survives startup untouched: it is neither
removed nor has its partial file deleted. -/
theorem claim_C1_counterexample :
    recPausedNoUrls.state ≠ DLState.finished ∧
    recPausedNoUrls.state ≠ DLState.failed ∧
    truthyArr recPausedNoUrls.urls = false ∧
    getFile (startupFinal [("c1", recPausedNoUrls)]) "c1" = some recPausedNoUrls ∧
    startupDeletes (some "dl") [("c1", recPausedNoUrls)] = [] := by
  decide

/-- C1 (amended): every persisted record in one of the recovery states
`init`/`started`/`pending` (not every non-terminal state: `paused` is
excluded) whose `urls` field was never set (`!truthy(urls)`; an empty but
present url list counts as resolved) is removed from the files map by the
startup block, and its partial file is deleted when both the download path
and the record's `localPath` are defined. -/
theorem claim_C1 (dp : Option String) (files : Files) (id : String)
    (d : IDownload) (hnd : keysNodup files) (hmem : (id, d) ∈ files)
    (hstate : recoveryStates.contains d.state = true)
    (hurls : truthyArr d.urls = false) :
    getFile (startupFinal files) id = none ∧
    (∀ dpv lpv, dp = some dpv → d.localPath = some lpv →
      pathJoin dpv lpv ∈ startupDeletes dp files) := by
  constructor
  · rw [getFile_startupFinal files id d hnd hmem, if_pos hstate, recoverAction,
      if_pos hurls]
    by_cases hl : truthyStr d.localPath = false
    · rw [if_pos hl]
      rfl
    · rw [if_neg hl]
      rfl
  · intro dpv lpv hdp hlp
    rw [startupDeletes]
    apply List.mem_flatMap.mpr
    refine ⟨(id, d), List.mem_filter.mpr ⟨hmem, hstate⟩, ?_⟩
    have hone : recoverDeletes dp id d = [pathJoin dpv lpv] := by
      rw [recoverDeletes_eq, if_pos hurls, hdp, hlp]
    rw [hone]
    exact List.mem_singleton.mpr rfl

/-- C1 (witness): a concrete `init` record with no urls is removed and its
partial file deleted. -/
theorem claim_C1_witness :
    getFile (startupFinal [("c1w", recNeverStartedA)]) "c1w" = none ∧
    pathJoin "dl" "partial-a.zip" ∈
      startupDeletes (some "dl") [("c1w", recNeverStartedA)] :=
  ⟨(claim_C1 (some "dl") [("c1w", recNeverStartedA)] "c1w" recNeverStartedA
      (by decide) (by decide) (by decide) (by decide)).1,
   (claim_C1 (some "dl") [("c1w", recNeverStartedA)] "c1w" recNeverStartedA
      (by decide) (by decide) (by decide) (by decide)).2
     "dl" "partial-a.zip" rfl rfl⟩

/-- C2 (counterexample): the claim says the remaining-bytes value passed to
the interrupted transition is never negative, being clamped to 0 when the
subtraction underflows. The code (index.ts lines 545-551) only clamps `NaN`:
for a record of size 100 with 150 bytes of chunk bookkeeping it dispatches
`setDownloadInterrupted` with the negative value −50. -/
theorem claim_C2_counterexample :
    Action.setDownloadInterrupted "c2" (-50) ∈
      startupActions [("c2", recNegChunks)] ∧
    (-50 : Int) < 0 := by
  decide

/-- C2 (amended): for every record the recovery pass marks interrupted, the
value passed to the transition is `realSize`: equal to
`size − Σ chunk.size` whenever the size is a nonzero defined number and every
chunk size is defined (even when that difference is negative — underflow is
passed through, not clamped), and equal to `0` when the size is `0`, the size
is `undefined`, or some chunk size is `undefined` (the `NaN` cases). -/
theorem claim_C2 (files : Files) (id : String) (d : IDownload)
    (hmem : (id, d) ∈ files)
    (hstate : recoveryStates.contains d.state = true)
    (hurls : truthyArr d.urls = true) :
    Action.setDownloadInterrupted id (realSize d) ∈ startupActions files ∧
    (∀ n : Int, d.size = some n → n ≠ 0 → ∀ cs : List Int,
      chunkSizesOf d = some cs → realSize d = n - cs.sum) ∧
    ((d.size = some 0 ∨ d.size = none ∨ chunkSizesOf d = none) →
      realSize d = 0) := by
  refine ⟨?_, ?_, ?_⟩
  · rw [startupActions]
    apply List.mem_append_left
    have hact : recoverAction id d = Action.setDownloadInterrupted id (realSize d) := by
      rw [recoverAction, if_neg (by simp [hurls])]
    rw [← hact]
    exact List.mem_map_of_mem _ (List.mem_filter.mpr ⟨hmem, hstate⟩)
  · intro n hn h0 cs hcs
    exact realSize_of_defined d n cs hn h0 hcs
  · exact realSize_zero d

/-- C2 (witness): a concrete resumable record (size 10, one chunk of 4) is
dispatched with its `realSize`. -/
theorem claim_C2_witness :
    Action.setDownloadInterrupted "c2w" (realSize recResumable) ∈
      startupActions [("c2w", recResumable)] :=
  (claim_C2 [("c2w", recResumable)] "c2w" recResumable (by decide) (by decide)
    (by decide)).1

/-- C3 (counterexample): the claim says startup recovery reclassifies every
non-terminal record with resolved candidate urls into `interrupted`. A
`paused` record — non-terminal per the badge filter at index.ts line 391 —
with resolved urls is not selected by the recovery filter (line 530 lists
only `init`/`started`/`pending`) and remains `paused` after the startup
block. -/
theorem claim_C3_counterexample :
    recPausedWithUrls.state ≠ DLState.finished ∧
    recPausedWithUrls.state ≠ DLState.failed ∧
    truthyArr recPausedWithUrls.urls = true ∧
    getFile (startupFinal [("c3", recPausedWithUrls)]) "c3" =
      some recPausedWithUrls ∧
    recPausedWithUrls.state ≠ DLState.interrupted := by
  decide

/-- C3 (amended): startup recovery reclassifies every persisted record in
one of the recovery states `init`/`started`/`pending` (not `paused`) with
resolved urls and a truthy `localPath` into `interrupted`; no such record
keeps its previous state. -/
theorem claim_C3 (files : Files) (id : String) (d : IDownload)
    (hnd : keysNodup files) (hmem : (id, d) ∈ files)
    (hstate : recoveryStates.contains d.state = true)
    (hurls : truthyArr d.urls = true)
    (hlp : truthyStr d.localPath = true) :
    getFile (startupFinal files) id = some (setInterruptedRec d) := by
  rw [getFile_startupFinal files id d hnd hmem, if_pos hstate, recoverAction,
    if_neg (by simp [hurls]), if_neg (by simp [hlp])]
  rfl

/-- C3 (witness): a concrete `started` record with urls ends `interrupted`. -/
theorem claim_C3_witness :
    getFile (startupFinal [("c3w", recStartedWithUrls)]) "c3w" =
      some (setInterruptedRec recStartedWithUrls) :=
  claim_C3 [("c3w", recStartedWithUrls)] "c3w" recStartedWithUrls (by decide)
    (by decide) (by decide) (by decide) (by decide)

/-- C4 (counterexample): the claim says a record is removed only on explicit
cancel/remove or supersession by a duplicate at the same destination path.
The startup block's final sweep (index.ts lines 554-560) removes every
record without a truthy `localPath` — here a `finished` record — although no
cancel, remove or supersession occurred. -/
theorem claim_C4_counterexample :
    getFile [("c4", recFinishedNoPath)] "c4" = some recFinishedNoPath ∧
    getFile (startupFinal [("c4", recFinishedNoPath)]) "c4" = none := by
  decide

/-- C4 (amended): besides explicit cancel/remove and supersession, records
are also removed by the startup block (never-started records and the
no-`localPath` sweep), by `updateDownloadPath`'s cleanup of finished records
without a `localPath`, by the failed-import rollback in `move`, and by the
rename handler when a tracked file disappears from disk. For the startup
block the removals are characterized exactly: a persisted record is gone
after startup iff its `localPath` is falsy, or it is in a recovery state
with never-resolved urls. -/
theorem claim_C4 (files : Files) (id : String) (d : IDownload)
    (hnd : keysNodup files) (hmem : (id, d) ∈ files) :
    getFile (startupFinal files) id = none ↔
      (truthyStr d.localPath = false ∨
       (recoveryStates.contains d.state = true ∧ truthyArr d.urls = false)) := by
  rw [getFile_startupFinal files id d hnd hmem]
  cases hs : recoveryStates.contains d.state <;>
    cases hu : truthyArr d.urls <;>
      cases hl : truthyStr d.localPath <;>
        simp [recoverAction, hs, hu, hl, applyPoint]

/-- C4 (witness): the characterization applied to the finished record with
no `localPath`. -/
theorem claim_C4_witness :
    getFile (startupFinal [("c4w", recFinishedNoPath)]) "c4w" = none ↔
      (truthyStr recFinishedNoPath.localPath = false ∨
       (recoveryStates.contains recFinishedNoPath.state = true ∧
        truthyArr recFinishedNoPath.urls = false)) :=
  claim_C4 [("c4w", recFinishedNoPath)] "c4w" recFinishedNoPath (by decide)
    (by decide)

/-- C5: every speed value delivered to the `DownloadManager` speed callback
ends up as the persisted `downloads.speed` verbatim (when the callback skips
the dispatch, both the delivered and the stored value are `0`, so the stored
value still equals the delivered one — present and a number, never
`undefined`); with the Throughput Meter's rate (modelled from the spec as
window byte sum over window span) the persisted value is never negative, and
it is exactly `0` when no bytes moved in the window. -/
theorem claim_C5 (deltas : List Nat) (spanSec : Nat) (prevSpeed : Int) :
    (∀ s : Int, (speedCallback s prevSpeed).1 = s) ∧
    0 ≤ (speedCallback (meterRate deltas spanSec) prevSpeed).1 ∧
    (deltas.sum = 0 → (speedCallback (meterRate deltas spanSec) prevSpeed).1 = 0) := by
  have hcb : ∀ s : Int, (speedCallback s prevSpeed).1 = s := by
    intro s
    rw [speedCallback]
    by_cases h : s ≠ 0 ∨ prevSpeed ≠ 0
    · rw [if_pos h]
    · rw [if_neg h]
      push_neg at h
      show prevSpeed = s
      omega
  have hrate : 0 ≤ meterRate deltas spanSec :=
    Int.ediv_nonneg (Int.natCast_nonneg _) (Int.natCast_nonneg _)
  refine ⟨hcb, ?_, ?_⟩
  · rw [hcb]
    exact hrate
  · intro hsum
    rw [hcb, meterRate, hsum]
    simp

/-- C5 (witness): an empty window reports exactly `0` even when the previous
persisted speed was nonzero. -/
theorem claim_C5_witness : (speedCallback (meterRate [] 5) 7).1 = 0 :=
  (claim_C5 [] 5 7).2.2 rfl

/-- C6: however many speed callbacks schedule the `setDownloadSpeeds`
debouncer, its dispatch times are at least one full 10000 ms debounce
interval apart — pairwise, every later dispatch is at least
`speedsDebounceMs` after every earlier one, so it fires at most once per
interval and never once per callback. -/
theorem claim_C6 (ts : List Nat) (hsorted : List.Pairwise (· ≤ ·) ts) :
    List.Pairwise (fun a b => a + speedsDebounceMs ≤ b)
      (setDownloadSpeedsTimes ts) := by
  cases ts with
  | nil => exact List.Pairwise.nil
  | cons t rest =>
    rw [List.pairwise_cons] at hsorted
    exact (debounceRun_pairwise speedsDebounceMs rest (t + speedsDebounceMs)
      hsorted.2 (fun u hu => by have := hsorted.1 u hu; omega)).1

/-- C6 (witness): three callbacks in three milliseconds produce dispatch
times spaced by at least the debounce interval. -/
theorem claim_C6_witness :
    List.Pairwise (fun a b => a + speedsDebounceMs ≤ b)
      (setDownloadSpeedsTimes [0, 1, 2]) :=
  claim_C6 [0, 1, 2] (by decide)

/-- C7: every file the startup block deletes from disk comes from the
never-started cleanup branch: a record in a recovery state whose urls were
never resolved, with the download path and the record's `localPath` both
defined; no other record processed at startup — in particular none removed
by the no-`localPath` sweep — has a file deleted. -/
theorem claim_C7 (dp : Option String) (files : Files) (p : String)
    (hp : p ∈ startupDeletes dp files) :
    ∃ id d, (id, d) ∈ files ∧ recoveryStates.contains d.state = true ∧
      truthyArr d.urls = false ∧
      ∃ dpv lpv, dp = some dpv ∧ d.localPath = some lpv ∧
        p = pathJoin dpv lpv := by
  rw [startupDeletes] at hp
  rcases List.mem_flatMap.mp hp with ⟨q, hq, hpq⟩
  obtain ⟨qid, qd⟩ := q
  have hqf := List.mem_filter.mp hq
  by_cases hu : truthyArr qd.urls = false
  · cases hdp : dp with
    | none =>
      cases hlp : qd.localPath with
      | none =>
        rw [recoverDeletes_eq, if_pos hu, hdp, hlp] at hpq
        cases hpq
      | some lpv =>
        rw [recoverDeletes_eq, if_pos hu, hdp, hlp] at hpq
        cases hpq
    | some dpv =>
      cases hlp : qd.localPath with
      | none =>
        rw [recoverDeletes_eq, if_pos hu, hdp, hlp] at hpq
        cases hpq
      | some lpv =>
        rw [recoverDeletes_eq, if_pos hu, hdp, hlp] at hpq
        have hpj : p = pathJoin dpv lpv := by
          cases hpq with
          | head => rfl
          | tail _ ht => cases ht
        exact ⟨qid, qd, hqf.1, hqf.2, hu, dpv, lpv, rfl, hlp, hpj⟩
  · rw [recoverDeletes_eq, if_neg hu] at hpq
    cases hpq

/-- C7 (witness): the one file deleted for a concrete never-started
`pending` record is accounted for by the cleanup branch. -/
theorem claim_C7_witness :
    ∃ id d, (id, d) ∈ ([("n7", recNeverStartedB)] : Files) ∧
      recoveryStates.contains d.state = true ∧ truthyArr d.urls = false ∧
      ∃ dpv lpv, (some "dl" : Option String) = some dpv ∧
        d.localPath = some lpv ∧ pathJoin "dl" "partial-b.zip" = pathJoin dpv lpv :=
  claim_C7 (some "dl") [("n7", recNeverStartedB)] (pathJoin "dl" "partial-b.zip")
    (by decide)

/-- C8 (counterexample): the claim says a failed import leaves the persisted
download set unchanged. When the destination file already exists and the
user confirms replacing it, `queryReplace`/`removeArchive` remove the
pre-existing record at that destination before the copy; if the copy then
fails, only the freshly created record is rolled back — the superseded
record stays removed, so the set differs from the initial one. -/
theorem claim_C8_counterexample :
    moveRun ⟨true, false, false, true, 0⟩ [("old", recImportedOver)] "new"
      "game1" "file.zip" = [] ∧
    ([("old", recImportedOver)] : Files) ≠ [] := by
  decide

/-- C8 (amended): when the import fails after the local-download record was
created (the copy or the final stat fails), the record created by this import
is removed again; the resulting set equals the initial one except
that, when an existing destination file was confirmed for replacement, the
records previously at that destination (`localPath = basename`) removed by
`removeArchive` stay removed. When the user cancels the replace dialog the
set is fully unchanged. -/
theorem claim_C8 (env : MoveEnv) (files : Files) (dlId gameMode baseName : String)
    (hnd : keysNodup files) (hfresh : dlId ∉ List.map Prod.fst files)
    (hfail : (env.copyOk && env.statOk) = false) :
    moveRun env files dlId gameMode baseName =
      if env.destExists && !env.userCancels then
        List.filter (fun p => !(decide (p.2.localPath = some baseName))) files
      else files := by
  cases hdE : env.destExists with
  | false =>
    simp only [moveRun, hdE, hfail, Bool.false_and, Bool.false_eq_true,
      if_false]
    exact addLocal_then_remove files dlId gameMode baseName 0 hfresh
  | true =>
    cases huC : env.userCancels with
    | true =>
      simp only [moveRun, hdE, huC, Bool.and_self, if_true, Bool.not_true,
        Bool.and_false, Bool.false_eq_true, if_false]
      exact removeAction_fresh files dlId hfresh
    | false =>
      simp only [moveRun, hdE, huC, hfail, Bool.and_false, Bool.false_eq_true,
        if_false, if_true, Bool.not_false, Bool.and_self]
      rw [removeArchiveState_eq files baseName hnd]
      have hfresh2 : dlId ∉ List.map Prod.fst
          (List.filter (fun p => !(decide (p.2.localPath = some baseName))) files) := by
        intro hin
        rcases List.mem_map.mp hin with ⟨q, hq, hq1⟩
        exact hfresh (hq1 ▸ List.mem_map_of_mem Prod.fst (List.mem_of_mem_filter hq))
      exact addLocal_then_remove _ dlId gameMode baseName 0 hfresh2

/-- C8 (witness): a cancelled replace leaves the set fully unchanged. -/
theorem claim_C8_witness :
    moveRun ⟨true, true, false, true, 0⟩ [("old8", recImportedOver)] "new8"
      "game1" "file.zip" = [("old8", recImportedOver)] :=
  claim_C8 ⟨true, true, false, true, 0⟩ [("old8", recImportedOver)] "new8"
    "game1" "file.zip" (by decide) (by decide) (by decide)

/-- C9: the `updateTimers` object of the download change handler starts
empty and is never written, so after any sequence of watch events it is
still empty, no `downloadProgress` action (the only dispatch of the `update`
branch) is ever emitted, and a trace consisting solely of `update` events
dispatches nothing at all — the store is unchanged by `update` events. -/
theorem claim_C9 (env : HandlerEnv) (nameIdMap : List (String × String))
    (evts : List (FsEvt × Option String)) :
    (runHandler env (handlerStart nameIdMap) evts).1.updateTimers = [] ∧
    (∀ a ∈ (runHandler env (handlerStart nameIdMap) evts).2,
      a.isProgress = false) ∧
    ((∀ e ∈ evts, e.1 = FsEvt.update) →
      (runHandler env (handlerStart nameIdMap) evts).2 = []) :=
  runHandler_inv env evts (handlerStart nameIdMap) rfl

/-- C9 (witness): two concrete `update` events on archive files dispatch
nothing. -/
theorem claim_C9_witness :
    (runHandler ⟨true, "dl", "game1", [], fun _ => none, "fresh1", fun s => s⟩
      (handlerStart [])
      [(FsEvt.update, some "a.zip"), (FsEvt.update, some "b.7z")]).2 = [] :=
  (claim_C9 ⟨true, "dl", "game1", [], fun _ => none, "fresh1", fun s => s⟩ []
    [(FsEvt.update, some "a.zip"), (FsEvt.update, some "b.7z")]).2.2 (by decide)

/-- C10: `knownArchiveExt` returns `false` for an `undefined` or empty path
and otherwise answers exactly whether the path's extension, lowercased,
belongs to the fixed archive-extension set; consequently the download change
handler ignores every file whose name has no known archive extension, and a
directory scan's candidate filter keeps exactly the names with a known
archive extension. -/
theorem claim_C10 :
    knownArchiveExt none = false ∧
    knownArchiveExt (some "") = false ∧
    (∀ s : String, s ≠ "" →
      knownArchiveExt (some s) =
        archiveExtLookup.contains (lowerString (extname s))) ∧
    (∀ env st evt s, knownArchiveExt (some s) = false →
      downloadChangeHandler env st evt (some s) = (st, [])) ∧
    (∀ names : List String, ∀ s ∈ names, knownArchiveExt (some s) = false →
      s ∉ refreshCandidates names) ∧
    (∀ names : List String, ∀ s ∈ refreshCandidates names,
      knownArchiveExt (some s) = true) := by
  refine ⟨rfl, rfl, ?_, ?_, ?_, ?_⟩
  · intro s hs
    rw [knownArchiveExt, if_neg (by simp [truthyStr, hs])]
    rfl
  · intro env st evt s h
    apply dch_guard
    rw [h]
    simp
  · intro names s _ h habs
    have hmem := (List.mem_filter.mp habs).2
    rw [h] at hmem
    exact Bool.noConfusion hmem
  · intro names s hmem
    exact (List.mem_filter.mp hmem).2

/-- C10 (witness): the characterization and the handler guard at concrete
file names. -/
theorem claim_C10_witness :
    knownArchiveExt (some "Mod.RAR") =
      archiveExtLookup.contains (lowerString (extname "Mod.RAR")) ∧
    downloadChangeHandler
      ⟨true, "dl", "game1", [], fun _ => none, "fresh1", fun s => s⟩
      (handlerStart []) FsEvt.update (some "readme.txt") = (handlerStart [], []) :=
  ⟨claim_C10.2.2.1 "Mod.RAR" (by decide),
   claim_C10.2.2.2.1 _ _ _ "readme.txt" (by decide)⟩

end Vortex
